import Mathlib

/-!
A shallow embedding of the testflo orchestration core: the result data model,
the exit-code contract of the isolation tiers, the fixture/body sequencing of
the execution lifecycle, the worker loop, the stop-on-failure scheduler of
`ConcurrentTestRunner.run_concurrent_tests`, and the `TimeFilter` pipeline
stage.  Each definition is translated from the corresponding source function;
the file/line references are given in the doc comments.
-/

namespace Testflo

/-- The three status values used throughout the source; the source represents
them as the string constants written in `runner.try_call` and
`test._try_call`. -/
inductive Status where
  | OK
  | SKIP
  | FAIL
deriving DecidableEq, Repr

/-- Modelled from the spec: the `TestResult` class lives in
`testflo/result.py`, which is not among the provided sources; its attributes
follow section 3 of the design (specification string, start/end timestamps,
status, captured error text, resource-usage sample). -/
structure TestResult where
  spec : String
  start_time : Nat
  end_time : Nat
  status : Status
  err_msg : String
  rdata : List (String × Nat)
deriving DecidableEq, Repr

/-- `Test.elapsed` in test.py, also used on results by
`TimeFilter.get_iter`: end time minus start time. -/
def TestResult.elapsed (r : TestResult) : Nat :=
  r.end_time - r.start_time

/-- `runner.exit_codes` (runner.py lines 19-23): the insertion-ordered table
OK -> 0, SKIP -> 42, FAIL -> 43. -/
def exit_codes : List (Status × Int) :=
  [(Status.OK, 0), (Status.SKIP, 42), (Status.FAIL, 43)]

/-- The for/else loop over `exit_codes.items()` in `runner.run_isolated`
(lines 227-231), `isolated.run_isolated` (lines 41-45) and `mpi.run_mpi`
(lines 50-54): the first table entry whose code equals the child's return
code gives the status; if none matches, the else clause sets FAIL. -/
def exit_status (returncode : Int) : Status :=
  ((exit_codes.find? (fun p => p.2 == returncode)).map Prod.fst).getD Status.FAIL

/-- The exit-code table exactly as the spec words it: the three reserved
codes map to OK/SKIP/FAIL and any other code is treated as FAIL
(claim-side reference definition, to be compared with `exit_status`). -/
def spec_code_table (returncode : Int) : Status :=
  if returncode == 0 then Status.OK
  else if returncode == 42 then Status.SKIP
  else Status.FAIL

/-- `Test._run_subproc` (test.py lines 150-160): a nonzero child exit code
yields status FAIL with the captured stderr text; exit code zero defers to
the object read back from the queue, keeping that object's own status. -/
def run_subproc_status (returncode : Int) (queue_status : Status) : Status :=
  if returncode == 0 then queue_status else Status.FAIL

/-- The three execution tiers behind `Test.run`. -/
inductive RunTier where
  | mpi
  | isolated
  | inprocess
deriving DecidableEq, Repr

/-- The tier-selection logic at the top of `Test.run` (test.py lines
229-239): when the required process count is positive and MPI has not been
disabled, `_run_mpi` is used only if the `mpi4py` import succeeds and a queue
was provided, otherwise control falls through to the in-process path (which
installs a `FakeComm`); `_run_isolated` is reachable only through the `elif`,
i.e. when the first condition is false. -/
def test_run_dispatch (nprocs : Nat) (nompi : Bool) (mpi4py_available : Bool)
    (has_queue : Bool) (isolated_opt : Bool) : RunTier :=
  if 0 < nprocs ∧ nompi = false then
    if mpi4py_available = true ∧ has_queue = true then RunTier.mpi
    else RunTier.inprocess
  else if isolated_opt = true then RunTier.isolated
  else RunTier.inprocess

/-- Outcome record for `TestRunner.run_test`: the emitted result plus flags
recording whether the test body and the teardown hook actually ran. -/
structure RunTestOutcome where
  result : TestResult
  body_ran : Bool
  teardown_ran : Bool
deriving DecidableEq, Repr

/-- `TestRunner.run_test` (runner.py lines 164-207): if a setUp hook exists
and returns non-OK, the body and the tearDown are both skipped and the setup
status stands; otherwise the body runs, and if a tearDown exists it runs and
its status replaces an OK body status.  `t0` and `t1` are the start/end
`time.time()` samples; `errtxt` is the captured stderr buffer. -/
def runner_run_test (testspec : String) (has_setup : Bool) (setup_status : Status)
    (has_teardown : Bool) (body_status : Status) (td_status : Status)
    (t0 t1 : Nat) (errtxt : String) : RunTestOutcome :=
  let run_method : Bool := !has_setup || setup_status == Status.OK
  let status1 := if run_method then body_status else setup_status
  let final_status :=
    if has_teardown && run_method then
      (if status1 = Status.OK then td_status else status1)
    else status1
  ⟨⟨testspec, t0, t1, final_status, errtxt, []⟩, run_method, has_teardown && run_method⟩

/-- What ran during one `Test.run` execution (test.py lines 306-364). -/
structure FixtureTrace where
  body_ran : Bool
  tcase_setup_ran : Bool
  tcase_teardown_ran : Bool
  mod_teardown_ran : Bool
  final_status : Option Status
deriving DecidableEq, Repr

/-- The fixture / body sequencing of `Test.run` (test.py lines 306-364).
A failing `setUpModule` sets `done` and clears `tearDownModule`; a class
skip decorator (checked only when not already done) sets SKIP and clears the
class fixtures; in the function branch the body is guarded by `not done`;
in the testcase branch a failing `setUpClass` sets `done` and clears
`tearDownClass`, but `parent.run(result)` is then invoked unconditionally
and the status extracted from the unittest result overwrites the previous
status.  `tearDownClass` runs when still set, and `tearDownModule` runs when
still set, independent of the testcase-level outcome. -/
def test_run_fixtures (has_mod_setup : Bool) (mod_setup_status : Status)
    (has_mod_teardown : Bool) (skip_decorated : Bool) (tcase_present : Bool)
    (has_tcase_setup : Bool) (tcase_setup_status : Status)
    (has_tcase_teardown : Bool) (body_status : Status) : FixtureTrace :=
  let done1 : Bool := has_mod_setup && !(mod_setup_status == Status.OK)
  let status1 : Option Status := if has_mod_setup then some mod_setup_status else none
  let mod_td1 : Bool := has_mod_teardown && !done1
  let skipped : Bool := !done1 && skip_decorated
  let status2 := if skipped then some Status.SKIP else status1
  let done2 := done1 || skipped
  let tc_setup2 := tcase_present && has_tcase_setup && !skipped
  let tc_td2 := tcase_present && has_tcase_teardown && !skipped
  if tcase_present then
    let tc_td3 := tc_td2 && !(tc_setup2 && !(tcase_setup_status == Status.OK))
    ⟨true, tc_setup2, tc_td3, mod_td1, some body_status⟩
  else
    let body_ran := !done2
    let status3 := if body_ran then some body_status else status2
    ⟨body_ran, false, false, mod_td1, status3⟩

/-- A side-channel payload after a successful `json.loads`: the parsed object
supports `.get` with a default for each of the two keys. -/
structure SideInfo where
  err_msg : Option String
  rdata : Option (List (String × Nat))
deriving DecidableEq, Repr

/-- `isolated.run_isolated` (isolated.py lines 21-67).  `t0`, `t1` are the
two `time.time()` samples around `p.wait()`; `payload` is what the child
wrote to the side channel; `parse` abstracts `json.loads` plus the key
accesses (`none` = any exception); `catch_txt` is `traceback.format_exc()`
in the catch-all.  In the source, `info` is assigned only inside
`if s: info = json.loads(s)`, so an empty payload leaves `info` unbound and
the later `info.get(...)` raises `NameError`, which lands in the catch-all
branch that zeroes the timestamps and sets FAIL. -/
def isolated_run_isolated (testspec : String) (t0 t1 : Nat) (returncode : Int)
    (payload : String) (parse : String → Option SideInfo) (catch_txt : String) : TestResult :=
  if payload = "" then
    ⟨testspec, 0, 0, Status.FAIL, catch_txt, []⟩
  else
    match parse payload with
    | none => ⟨testspec, 0, 0, Status.FAIL, catch_txt, []⟩
    | some info =>
      ⟨testspec, t0, t1, exit_status returncode, info.err_msg.getD "", info.rdata.getD []⟩

/-- `mpi.run_mpi` (mpi.py lines 18-78): `info` starts as the empty dict and
is replaced only when the payload is nonempty and starts with an opening
brace; the missing-launcher check precedes the subprocess launch and raises
into the catch-all. -/
def run_mpi (testspec : String) (t0 t1 : Nat) (mpirun_found : Bool) (returncode : Int)
    (payload : String) (parse : String → Option SideInfo) (catch_txt : String) : TestResult :=
  if mpirun_found = false then
    ⟨testspec, 0, 0, Status.FAIL, catch_txt, []⟩
  else if payload ≠ "" ∧ payload.startsWith "\x7b" then
    match parse payload with
    | none => ⟨testspec, 0, 0, Status.FAIL, catch_txt, []⟩
    | some info =>
      ⟨testspec, t0, t1, exit_status returncode, info.err_msg.getD "", info.rdata.getD []⟩
  else
    ⟨testspec, t0, t1, exit_status returncode, "", []⟩

/-- `runner.run_isolated` (runner.py lines 210-251): the parent maps the exit
code through the table and uses the child's stderr text verbatim; `raised`
covers any parent-side fault (spawn or read failure), which lands in the
catch-all producing FAIL with both timestamps zero. -/
def runner_run_isolated (testspec : String) (t0 t1 : Nat) (raised : Bool)
    (returncode : Int) (ferr : String) (catch_txt : String) : TestResult :=
  if raised then ⟨testspec, 0, 0, Status.FAIL, catch_txt, []⟩
  else ⟨testspec, t0, t1, exit_status returncode, ferr, []⟩

/-- How `parse_test_path` can turn out inside `TestRunner.run_testspec`. -/
inductive ParseOutcome where
  | resolution_error (txt : String)
  | missing_method
  | resolved
deriving DecidableEq, Repr

/-- `TestRunner.run_testspec` (runner.py lines 146-162) with an explicit
clock: `ts 0` is the `time.time()` sample taken on entry; a resolution
failure or a missing method takes a second sample `ts 1` for the end
timestamp of the synthesized FAIL result; otherwise `run_test` samples its
own start `ts 1` and end `ts 2`. -/
def run_testspec (ts : Nat → Nat) (testspec : String) (pout : ParseOutcome)
    (has_setup : Bool) (setup_status : Status) (has_teardown : Bool)
    (body_status td_status : Status) (errtxt : String) : TestResult :=
  match pout with
  | ParseOutcome.resolution_error txt => ⟨testspec, ts 0, ts 1, Status.FAIL, txt, []⟩
  | ParseOutcome.missing_method =>
      ⟨testspec, ts 0, ts 1, Status.FAIL, "ERROR: test method not specified.", []⟩
  | ParseOutcome.resolved =>
      (runner_run_test testspec has_setup setup_status has_teardown body_status td_status
        (ts 1) (ts 2) errtxt).result

/-- The timestamps set by `Test._get_test_info` (test.py lines 112-134): the
constructor initializes both to zero; when resolution fails (`err_msg`
nonempty) both are set to one and the same `time.perf_counter()` sample. -/
def get_test_info_times (sample : Nat) (failed : Bool) : Nat × Nat :=
  if failed then (sample, sample) else (0, 0)

/-- The FAIL result a worker builds in its catch-all (`runner.worker`, lines
110-123): zeroed timestamps and the diagnostic trace as error text. -/
def worker_fail_result (testspec : String) (trace_txt : String) : TestResult :=
  ⟨testspec, 0, 0, Status.FAIL, trace_txt, []⟩

/-- `runner.worker` (runner.py lines 110-123) over the finite list of items
the worker will take from its task queue: `iter(test_queue.get, STOP)` stops
at the sentinel; otherwise the item is run, a fault while producing its
result (`faults`) is converted into the catch-all FAIL result, and the loop
continues with the next item. -/
def worker (run : String → TestResult) (faults : String → Bool)
    (trace_txt : String → String) : List String → List TestResult
  | [] => []
  | t :: ts =>
    if t = "STOP" then []
    else (if faults t then worker_fail_result t (trace_txt t) else run t)
        :: worker run faults trace_txt ts

/-- One pass of `TimeFilter.get_iter` (filters.py lines 16-21): first
component is the lines printed to the output file, second the results
yielded downstream. -/
def timefilter_step (max_time : Nat) : List TestResult → List String × List TestResult
  | [] => ([], [])
  | r :: rs =>
    let rest := timefilter_step max_time rs
    (if r.status = Status.OK ∧ r.elapsed ≤ max_time then r.spec :: rest.1 else rest.1,
     r :: rest.2)

/-- `TimeFilter.get_iter` with the output file's prior contents made
explicit: the file is opened with mode w before iterating, so the prior
contents are discarded and only the lines of this pass remain. -/
def timefilter_get_iter (max_time : Nat) (_prior_file : List String)
    (input : List TestResult) : List String × List TestResult :=
  timefilter_step max_time input

/-- `TestRunner.get_iter` (runner.py lines 130-137): run serially, yield each
result, and stop after the first FAIL when the stop option is set. -/
def get_iter (run : String → TestResult) (stop : Bool) : List String → List TestResult
  | [] => []
  | t :: ts =>
    let r := run t
    if stop ∧ r.status = Status.FAIL then [r] else r :: get_iter run stop ts

/-- Observable events of `ConcurrentTestRunner.run_concurrent_tests`: putting
a real work item on the task queue, yielding a result downstream, and putting
one stop sentinel on the task queue. -/
inductive Event where
  | assign (testspec : String)
  | yielded (r : TestResult)
  | sentinel
deriving DecidableEq, Repr

def Event.isAssign : Event → Bool
  | Event.assign _ => true
  | _ => false

def Event.isFailYield : Event → Bool
  | Event.yielded r => r.status == Status.FAIL
  | _ => false

/-- The results yielded along a trace, in order. -/
def yieldsOf : List Event → List TestResult
  | [] => []
  | Event.yielded r :: es => r :: yieldsOf es
  | _ :: es => yieldsOf es

/-- The work items put on the task queue along a trace, in order. -/
def assignsOf : List Event → List String
  | [] => []
  | Event.assign s :: es => s :: assignsOf es
  | _ :: es => assignsOf es

/-- The number of stop sentinels sent along a trace. -/
def sentinelCount : List Event → Nat
  | [] => 0
  | Event.sentinel :: es => sentinelCount es + 1
  | _ :: es => sentinelCount es

/-- Once a FAIL result has been yielded, no later event of the trace puts a
new work item on the task queue. -/
def noAssignAfterFirstFail : List Event → Bool
  | [] => true
  | e :: es =>
    if e.isFailYield then es.all (fun x => !x.isAssign)
    else noAssignAfterFirstFail es

/-- One `done_queue.get()` step: the completion oracle selects which of the
in-flight items a worker finishes next.  An in-flight item equal to the
worker sentinel string is consumed by a worker as its stop signal and never
produces a result, so only the other items are candidates. -/
def pickCompletable (oracle : Nat → Nat) (step : Nat) (completable : List String) : String :=
  completable.getD (oracle step % completable.length) ""

/-- The while loop of `run_concurrent_tests` (runner.py lines 315-325): get a
completed result, yield it, break on FAIL when the stop option is set,
otherwise put the next input item on the task queue (exiting the loop when
the input iterator is exhausted).  Returns the events of the loop, the work
items still in flight when it exits, the next oracle step, and whether the
coordinator blocked forever inside `done_queue.get()` (possible only when
every in-flight item equals the worker sentinel, so no worker will ever
complete one). -/
def concLoop (run : String → TestResult) (stop : Bool) (oracle : Nat → Nat) :
    List String → List String → Nat → List Event × List String × Nat × Bool
  | pending, inflight, step =>
    if inflight = [] then ([], [], step, false)
    else
      let completable := inflight.filter (fun s => !(s == "STOP"))
      if completable = [] then ([], inflight, step, true)
      else
        let c := pickCompletable oracle step completable
        let r := run c
        let inflight2 := inflight.erase c
        if stop ∧ r.status = Status.FAIL then ([Event.yielded r], inflight2, step + 1, false)
        else
          match pending with
          | [] => ([Event.yielded r], inflight2, step + 1, false)
          | p :: ps =>
            let next := concLoop run stop oracle ps (inflight2 ++ [p]) (step + 1)
            (Event.yielded r :: Event.assign p :: next.1, next.2)

/-- Body of the drain loop after the while loop (runner.py lines 330-331),
with an explicit iteration bound: each `done_queue.get()` removes one
in-flight item, so the number of iterations is bounded by the number of
in-flight items and the bound never cuts the loop short.  If only
sentinel-valued items remain, the coordinator blocks and the trace ends. -/
def drainFuel (run : String → TestResult) (oracle : Nat → Nat) :
    Nat → List String → Nat → List Event
  | 0, _, _ => []
  | n + 1, inflight, step =>
    let completable := inflight.filter (fun s => !(s == "STOP"))
    if completable = [] then []
    else
      let c := pickCompletable oracle step completable
      Event.yielded (run c) :: drainFuel run oracle n (inflight.erase c) (step + 1)

/-- The drain loop after the while loop (runner.py lines 330-331): yield the
results of the remaining in-flight items, one `done_queue.get()` at a time. -/
def drainLoop (run : String → TestResult) (oracle : Nat → Nat)
    (inflight : List String) (step : Nat) : List Event :=
  drainFuel run oracle inflight.length inflight step

/-- `ConcurrentTestRunner.run_concurrent_tests` (runner.py lines 303-334) as
an event trace, parameterized by a completion oracle.  The initial fill puts
one input item per worker process on the task queue; if the input runs out
during the fill, the `StopIteration` skips the while loop entirely.  After
the while loop, one stop sentinel per worker is queued and then the remaining
in-flight results are drained.  A coordinator deadlocked inside the while
loop emits nothing further. -/
def run_concurrent_tests (run : String → TestResult) (stop : Bool) (nprocs : Nat)
    (input : List String) (oracle : Nat → Nat) : List Event :=
  let initial := input.take nprocs
  let fill := initial.map Event.assign
  if input.length < nprocs then
    fill ++ List.replicate nprocs Event.sentinel ++ drainLoop run oracle initial 0
  else
    let loopOut := concLoop run stop oracle (input.drop nprocs) initial 0
    if loopOut.2.2.2 then fill ++ loopOut.1
    else
      fill ++ loopOut.1 ++ List.replicate nprocs Event.sentinel
        ++ drainLoop run oracle loopOut.2.1 loopOut.2.2.1

/-! ## Theorems -/

/-! ### Helper lemmas about trace observers -/

theorem yieldsOf_append (l1 l2 : List Event) :
    yieldsOf (l1 ++ l2) = yieldsOf l1 ++ yieldsOf l2 := by
  induction l1 with
  | nil => rfl
  | cons e es ih => cases e <;> simp [yieldsOf, ih]

theorem assignsOf_append (l1 l2 : List Event) :
    assignsOf (l1 ++ l2) = assignsOf l1 ++ assignsOf l2 := by
  induction l1 with
  | nil => rfl
  | cons e es ih => cases e <;> simp [assignsOf, ih]

theorem sentinelCount_append (l1 l2 : List Event) :
    sentinelCount (l1 ++ l2) = sentinelCount l1 + sentinelCount l2 := by
  induction l1 with
  | nil => simp [sentinelCount]
  | cons e es ih => cases e <;> simp [sentinelCount, ih] <;> omega

theorem yieldsOf_map_assign (l : List String) : yieldsOf (l.map Event.assign) = [] := by
  induction l with
  | nil => rfl
  | cons a as ih => simp [yieldsOf, ih]

theorem assignsOf_map_assign (l : List String) : assignsOf (l.map Event.assign) = l := by
  induction l with
  | nil => rfl
  | cons a as ih => simp [assignsOf, ih]

theorem sentinelCount_map_assign (l : List String) :
    sentinelCount (l.map Event.assign) = 0 := by
  induction l with
  | nil => rfl
  | cons a as ih => simp [sentinelCount, ih]

theorem map_assign_no_fail (l : List String) :
    (l.map Event.assign).all (fun e => !e.isFailYield) = true := by
  induction l with
  | nil => rfl
  | cons a as ih => simp [Event.isFailYield, ih]

theorem yieldsOf_replicate_sentinel (n : Nat) :
    yieldsOf (List.replicate n Event.sentinel) = [] := by
  induction n with
  | zero => rfl
  | succ n ih => simp [List.replicate_succ, yieldsOf, ih]

theorem assignsOf_replicate_sentinel (n : Nat) :
    assignsOf (List.replicate n Event.sentinel) = [] := by
  induction n with
  | zero => rfl
  | succ n ih => simp [List.replicate_succ, assignsOf, ih]

theorem sentinelCount_replicate (n : Nat) :
    sentinelCount (List.replicate n Event.sentinel) = n := by
  induction n with
  | zero => rfl
  | succ n ih => simp [List.replicate_succ, sentinelCount, ih]

theorem replicate_sentinel_no_fail (n : Nat) :
    (List.replicate n Event.sentinel).all (fun e => !e.isFailYield) = true := by
  induction n with
  | zero => rfl
  | succ n ih => simp [List.replicate_succ, Event.isFailYield, ih]

theorem replicate_sentinel_no_assign (n : Nat) :
    (List.replicate n Event.sentinel).all (fun e => !e.isAssign) = true := by
  induction n with
  | zero => rfl
  | succ n ih => simp [List.replicate_succ, Event.isAssign, ih]

theorem naf_of_no_assign {l : List Event} (h : l.all (fun e => !e.isAssign) = true) :
    noAssignAfterFirstFail l = true := by
  induction l with
  | nil => rfl
  | cons e es ih =>
    rw [List.all_cons, Bool.and_eq_true] at h
    by_cases hf : e.isFailYield = true
    · simp [noAssignAfterFirstFail, hf, h.2]
    · simp only [Bool.not_eq_true] at hf
      simp [noAssignAfterFirstFail, hf, ih h.2]

theorem naf_append_no_fail {l1 l2 : List Event} (h : l1.all (fun e => !e.isFailYield) = true)
    (h2 : noAssignAfterFirstFail l2 = true) :
    noAssignAfterFirstFail (l1 ++ l2) = true := by
  induction l1 with
  | nil => simpa using h2
  | cons e es ih =>
    rw [List.all_cons, Bool.and_eq_true] at h
    have hf : e.isFailYield = false := by
      have := h.1
      cases hx : e.isFailYield
      · rfl
      · rw [hx] at this; simp at this
    simp [noAssignAfterFirstFail, hf, ih h.2]

/-! ### Helper lemmas about the picked in-flight item -/

theorem pickCompletable_mem (oracle : Nat → Nat) (step : Nat) {completable : List String}
    (h : completable ≠ []) : pickCompletable oracle step completable ∈ completable := by
  have hl : 0 < completable.length := List.length_pos.mpr h
  have hlt : oracle step % completable.length < completable.length := Nat.mod_lt _ hl
  unfold pickCompletable
  rw [List.getD_eq_getElem?_getD, List.getElem?_eq_getElem hlt]
  simpa using List.getElem_mem hlt

theorem filter_eq_self_of_no_stop {l : List String} (h : "STOP" ∉ l) :
    l.filter (fun s => !(s == "STOP")) = l := by
  apply List.filter_eq_self.mpr
  intro a ha
  have hne : a ≠ "STOP" := fun he => h (he ▸ ha)
  simp [hne]

theorem erase_no_stop {l : List String} (c : String) (h : "STOP" ∉ l) :
    "STOP" ∉ l.erase c := fun hm => h (List.mem_of_mem_erase hm)

theorem perm_erase_map (run : String → TestResult) {l : List String} {c : String}
    (hc : c ∈ l) : (l.map run).Perm (run c :: (l.erase c).map run) :=
  (List.perm_cons_erase hc).map run

theorem filter_length_erase {l : List String} {c : String} (hc : c ∈ l) (hns : c ≠ "STOP") :
    ((l.erase c).filter (fun s => !(s == "STOP"))).length + 1 =
      (l.filter (fun s => !(s == "STOP"))).length := by
  obtain ⟨l1, l2, _, heq, her⟩ := List.exists_erase_eq hc
  rw [her, heq]
  simp [List.filter_append, List.filter_cons, hns]
  omega

theorem filter_lt_of_mem_stop {l : List String} (h : "STOP" ∈ l) :
    (l.filter (fun s => !(s == "STOP"))).length < l.length := by
  induction l with
  | nil => cases h
  | cons a as ih =>
    by_cases ha : a = "STOP"
    · subst ha
      have : (("STOP" :: as).filter (fun s => !(s == "STOP"))) =
          as.filter (fun s => !(s == "STOP")) := by simp [List.filter_cons]
      rw [this]
      calc (as.filter (fun s => !(s == "STOP"))).length ≤ as.length :=
            List.length_filter_le _ _
        _ < ("STOP" :: as).length := by simp
    · have hm : "STOP" ∈ as := by
        rcases List.mem_cons.mp h with h1 | h1
        · exact absurd h1.symm ha
        · exact h1
      have := ih hm
      simp [List.filter_cons, ha]
      omega

/-! ### Drain-loop lemmas -/

theorem drainFuel_no_assign (run : String → TestResult) (oracle : Nat → Nat) :
    ∀ (n : Nat) (inflight : List String) (step : Nat),
      (drainFuel run oracle n inflight step).all (fun e => !e.isAssign) = true := by
  intro n
  induction n with
  | zero => intro inflight step; rfl
  | succ n ih =>
    intro inflight step
    by_cases h : inflight.filter (fun s => !(s == "STOP")) = []
    · simp [drainFuel, h]
    · have hstep : drainFuel run oracle (n + 1) inflight step =
          Event.yielded (run (pickCompletable oracle step (inflight.filter (fun s => !(s == "STOP")))))
            :: drainFuel run oracle n
              (inflight.erase (pickCompletable oracle step (inflight.filter (fun s => !(s == "STOP")))))
              (step + 1) := by
        simp only [drainFuel]
        rw [if_neg h]
      rw [hstep, List.all_cons, Bool.and_eq_true]
      exact ⟨rfl, ih _ _⟩

theorem drainFuel_assignsOf (run : String → TestResult) (oracle : Nat → Nat) :
    ∀ (n : Nat) (inflight : List String) (step : Nat),
      assignsOf (drainFuel run oracle n inflight step) = [] := by
  intro n
  induction n with
  | zero => intro inflight step; rfl
  | succ n ih =>
    intro inflight step
    by_cases h : inflight.filter (fun s => !(s == "STOP")) = []
    · simp [drainFuel, h, assignsOf]
    · simp [drainFuel, h, assignsOf, ih]

theorem drainFuel_sentinelCount (run : String → TestResult) (oracle : Nat → Nat) :
    ∀ (n : Nat) (inflight : List String) (step : Nat),
      sentinelCount (drainFuel run oracle n inflight step) = 0 := by
  intro n
  induction n with
  | zero => intro inflight step; rfl
  | succ n ih =>
    intro inflight step
    by_cases h : inflight.filter (fun s => !(s == "STOP")) = []
    · simp [drainFuel, h, sentinelCount]
    · simp [drainFuel, h, sentinelCount, ih]

theorem drainFuel_perm (run : String → TestResult) (oracle : Nat → Nat) :
    ∀ (n : Nat) (inflight : List String) (step : Nat),
      inflight.length ≤ n → "STOP" ∉ inflight →
      (yieldsOf (drainFuel run oracle n inflight step)).Perm (inflight.map run) := by
  intro n
  induction n with
  | zero =>
    intro inflight step hlen _
    have : inflight = [] := List.eq_nil_of_length_eq_zero (Nat.le_zero.mp hlen)
    subst this
    simp [drainFuel, yieldsOf]
  | succ n ih =>
    intro inflight step hlen hns
    by_cases he : inflight = []
    · subst he; simp [drainFuel, yieldsOf]
    · have hfe : inflight.filter (fun s => !(s == "STOP")) = inflight :=
        filter_eq_self_of_no_stop hns
      have hne : inflight.filter (fun s => !(s == "STOP")) ≠ [] := by rw [hfe]; exact he
      have hcm : pickCompletable oracle step (inflight.filter (fun s => !(s == "STOP"))) ∈ inflight :=
        List.mem_of_mem_filter (pickCompletable_mem oracle step hne)
      have hstep : drainFuel run oracle (n + 1) inflight step =
          Event.yielded (run (pickCompletable oracle step (inflight.filter (fun s => !(s == "STOP")))))
            :: drainFuel run oracle n
              (inflight.erase (pickCompletable oracle step (inflight.filter (fun s => !(s == "STOP")))))
              (step + 1) := by
        simp only [drainFuel]
        rw [if_neg hne]
      rw [hstep]
      have hlen2 : (inflight.erase (pickCompletable oracle step (inflight.filter (fun s => !(s == "STOP"))))).length ≤ n := by
        rw [List.length_erase_of_mem hcm]
        omega
      have ihh := ih _ (step + 1) hlen2 (erase_no_stop _ hns)
      simp only [yieldsOf]
      exact (ihh.cons _).trans (perm_erase_map run hcm).symm

theorem drainFuel_count (run : String → TestResult) (oracle : Nat → Nat) :
    ∀ (n : Nat) (inflight : List String) (step : Nat), inflight.length ≤ n →
      (yieldsOf (drainFuel run oracle n inflight step)).length =
        (inflight.filter (fun s => !(s == "STOP"))).length := by
  intro n
  induction n with
  | zero =>
    intro inflight step hlen
    have : inflight = [] := List.eq_nil_of_length_eq_zero (Nat.le_zero.mp hlen)
    subst this
    simp [drainFuel, yieldsOf]
  | succ n ih =>
    intro inflight step hlen
    by_cases hne : inflight.filter (fun s => !(s == "STOP")) = []
    · simp [drainFuel, hne, yieldsOf]
    · have hpick := pickCompletable_mem oracle step hne
      have hcm : pickCompletable oracle step (inflight.filter (fun s => !(s == "STOP"))) ∈ inflight :=
        List.mem_of_mem_filter hpick
      have hcns : pickCompletable oracle step (inflight.filter (fun s => !(s == "STOP"))) ≠ "STOP" := by
        have := List.of_mem_filter hpick
        simpa using this
      have hstep : drainFuel run oracle (n + 1) inflight step =
          Event.yielded (run (pickCompletable oracle step (inflight.filter (fun s => !(s == "STOP")))))
            :: drainFuel run oracle n
              (inflight.erase (pickCompletable oracle step (inflight.filter (fun s => !(s == "STOP")))))
              (step + 1) := by
        simp only [drainFuel]
        rw [if_neg hne]
      rw [hstep]
      have hlen2 : (inflight.erase (pickCompletable oracle step (inflight.filter (fun s => !(s == "STOP"))))).length ≤ n := by
        rw [List.length_erase_of_mem hcm]
        omega
      have ihh := ih _ (step + 1) hlen2
      have hfe := filter_length_erase hcm hcns
      simp only [yieldsOf, List.length_cons]
      omega

/-- C3, counterexample.  The claim says every subprocess-tier parent maps the
reserved SKIP exit code 42 to status SKIP; but the parent `Test._run_subproc`
(test.py lines 150-160) maps every nonzero exit code, 42 included, to FAIL. -/
theorem reserved_skip_code_counterexample :
    run_subproc_status 42 Status.SKIP = Status.FAIL ∧ Status.FAIL ≠ Status.SKIP := by
  decide

/-- C3, amended.  In the exit-code-table parents (`runner.run_isolated`,
`isolated.run_isolated`, `mpi.run_mpi`) exactly the three reserved codes map
to OK/SKIP/FAIL and any other code yields FAIL (the table loop agrees with
the spec's table everywhere); in `Test._run_subproc` every nonzero exit code
yields FAIL and exit code 0 defers to the status of the queued result. -/
theorem exit_code_mapping (rc : Int) (q : Status) :
    exit_status rc = spec_code_table rc
    ∧ (rc ≠ 0 → run_subproc_status rc q = Status.FAIL)
    ∧ run_subproc_status 0 q = q := by
  refine ⟨?_, ?_, rfl⟩
  · by_cases h0 : rc = 0
    · subst h0; decide
    · by_cases h42 : rc = 42
      · subst h42; decide
      · by_cases h43 : rc = 43
        · subst h43; decide
        · have e0 : ((0 : Int) == rc) = false := beq_eq_false_iff_ne.mpr fun h => h0 h.symm
          have e42 : ((42 : Int) == rc) = false := beq_eq_false_iff_ne.mpr fun h => h42 h.symm
          have e43 : ((43 : Int) == rc) = false := beq_eq_false_iff_ne.mpr fun h => h43 h.symm
          have f0 : (rc == (0 : Int)) = false := beq_eq_false_iff_ne.mpr h0
          have f42 : (rc == (42 : Int)) = false := beq_eq_false_iff_ne.mpr h42
          simp [exit_status, exit_codes, spec_code_table, List.find?, e0, e42, e43, f0, f42]
  · intro h
    have : (rc == (0 : Int)) = false := beq_eq_false_iff_ne.mpr h
    simp [run_subproc_status, this]

/-- C3, witness for the amended theorem at exit code 42. -/
theorem exit_code_mapping_witness :
    exit_status 42 = spec_code_table 42 ∧ run_subproc_status 42 Status.SKIP = Status.FAIL :=
  ⟨(exit_code_mapping 42 Status.SKIP).1, (exit_code_mapping 42 Status.SKIP).2.1 (by decide)⟩

/-- C2, counterexample.  The claim says a unit with a positive required
process count falls back to subprocess isolation when MPI support is
unavailable; but with nprocs = 2, an unavailable mpi4py and even the
isolation option set, `Test.run` falls through to the in-process path. -/
theorem mpi_fallback_counterexample :
    test_run_dispatch 2 false false true true = RunTier.inprocess
    ∧ RunTier.inprocess ≠ RunTier.isolated := by
  decide

/-- C2, amended.  For a unit with required process count greater than 0 (and
MPI not disabled by option), when cooperative-process support is unavailable
— the mpi4py import fails — or no queue is provided, `Test.run` executes the
unit in the calling process (installing a FakeComm); it never selects the
subprocess-isolation tier in that situation, because `_run_isolated` is only
reachable through the elif branch. -/
theorem mpi_unavailable_runs_in_process (nprocs : Nat) (mpi4py_available has_queue isolated_opt : Bool)
    (hn : 0 < nprocs) (hmpi : mpi4py_available = false ∨ has_queue = false) :
    test_run_dispatch nprocs false mpi4py_available has_queue isolated_opt = RunTier.inprocess
    ∧ test_run_dispatch nprocs false mpi4py_available has_queue isolated_opt ≠ RunTier.isolated := by
  have hmain : (0 < nprocs ∧ (false : Bool) = false) := ⟨hn, rfl⟩
  rcases hmpi with h | h <;>
    simp [test_run_dispatch, hmain, h]

/-- C2, witness: nprocs = 2, mpi4py unavailable, queue present, isolation
option set, yet the unit runs in-process. -/
theorem mpi_unavailable_runs_in_process_witness :
    test_run_dispatch 2 false false true true = RunTier.inprocess
    ∧ test_run_dispatch 2 false false true true ≠ RunTier.isolated :=
  mpi_unavailable_runs_in_process 2 false true true (by decide) (Or.inl rfl)

/-- C4: at the failing input — a testcase-based unit whose setUpClass hook
returns FAIL while the test method itself passes — `Test.run` still executes
the unit body (`parent.run(result)` is not guarded by `done`) and the final
status is the body's OK, while the class-scope teardown is skipped and the
module-scope teardown still runs.  The claim (and the spec) say the body is
never executed after a setup failure. -/
theorem tcase_setup_failure_body_still_runs :
    test_run_fixtures false Status.OK true false true true Status.FAIL true Status.OK =
      ⟨true, true, false, true, some Status.OK⟩ := by
  decide

/-- C5: in `TestRunner.run_test`, when the setUp hook (if any) and the body
both complete with OK but the tearDown hook returns a non-OK status, the
emitted result's status equals the teardown's status (the body and teardown
both ran). -/
theorem unit_teardown_status_becomes_overall (testspec : String) (has_setup : Bool)
    (setup_status body_status td_status : Status) (t0 t1 : Nat) (errtxt : String)
    (hsetup : has_setup = true → setup_status = Status.OK)
    (hbody : body_status = Status.OK) (htd : td_status ≠ Status.OK) :
    (runner_run_test testspec has_setup setup_status true body_status td_status t0 t1 errtxt).result.status = td_status
    ∧ (runner_run_test testspec has_setup setup_status true body_status td_status t0 t1 errtxt).body_ran = true
    ∧ (runner_run_test testspec has_setup setup_status true body_status td_status t0 t1 errtxt).teardown_ran = true := by
  cases has_setup with
  | false => simp [runner_run_test, hbody]
  | true => simp [runner_run_test, hsetup rfl, hbody]

/-- C5, witness: setUp OK, body OK, tearDown returns SKIP, overall SKIP. -/
theorem unit_teardown_status_becomes_overall_witness :
    (runner_run_test "m:f" true Status.OK true Status.OK Status.SKIP 3 7 "").result.status = Status.SKIP :=
  (unit_teardown_status_becomes_overall "m:f" true Status.OK Status.OK Status.SKIP 3 7 ""
    (fun _ => rfl) rfl (by decide)).1

/-- C6: at the failing input — child exit code 42 (the reserved SKIP code)
with an empty side-channel payload — `isolated.run_isolated` does not treat
the payload as absence of extra data: `info` is never bound, the `NameError`
lands in the catch-all, and the result is FAIL with both timestamps zeroed
and the traceback as error text.  Its sibling `mpi.run_mpi`, which does
initialize `info` to the empty dict, keeps the exit-code-derived SKIP status
and the measured times with empty extra data, as the claim demands. -/
theorem empty_payload_catchall :
    isolated_run_isolated "t" 5 9 42 "" (fun _ => some ⟨some "x", some [("maxrss", 1)]⟩) "TB" =
      ⟨"t", 0, 0, Status.FAIL, "TB", []⟩
    ∧ run_mpi "t" 5 9 true 42 "" (fun _ => some ⟨some "x", some [("maxrss", 1)]⟩) "TB" =
      ⟨"t", 5, 9, Status.SKIP, "", []⟩ := by
  constructor
  · rfl
  · rfl

/-- C7, counterexample.  A resolution-failure result of
`TestRunner.run_testspec` is synthesized before execution began, yet its end
timestamp is a second, later clock sample: with the clock advancing one tick
per call, end = 1 while start = 0. -/
theorem presynth_times_counterexample :
    (run_testspec (fun i => i) "bad" (ParseOutcome.resolution_error "TB") false Status.OK
      false Status.OK Status.OK "").end_time ≠
    (run_testspec (fun i => i) "bad" (ParseOutcome.resolution_error "TB") false Status.OK
      false Status.OK Status.OK "").start_time := by
  decide

/-- C7, amended.  With a monotone clock, every result emitted by the embedded
producers satisfies end_time >= start_time; the pre-execution results of
`Test._get_test_info` and the catch-all results (worker fault, parent-side
fault in the isolation tiers) have equal timestamps, but the
resolution-failure and missing-method results of `TestRunner.run_testspec`
take a fresh second clock sample for the end timestamp, so for them only
end_time >= start_time holds. -/
theorem result_times_contract (ts : Nat → Nat) (h01 : ts 0 ≤ ts 1) (h12 : ts 1 ≤ ts 2)
    (testspec : String) (pout : ParseOutcome) (hs : Bool) (ss : Status) (ht : Bool)
    (bs tds : Status) (errtxt : String) (t0 t1 : Nat) (hle : t0 ≤ t1) (raised : Bool)
    (rc : Int) (ferr catch_txt payload : String) (parse : String → Option SideInfo)
    (mpirun_found : Bool) (sample : Nat) (failed : Bool) (trace_txt : String) :
    (run_testspec ts testspec pout hs ss ht bs tds errtxt).start_time ≤
      (run_testspec ts testspec pout hs ss ht bs tds errtxt).end_time
    ∧ (runner_run_isolated testspec t0 t1 raised rc ferr catch_txt).start_time ≤
      (runner_run_isolated testspec t0 t1 raised rc ferr catch_txt).end_time
    ∧ (isolated_run_isolated testspec t0 t1 rc payload parse catch_txt).start_time ≤
      (isolated_run_isolated testspec t0 t1 rc payload parse catch_txt).end_time
    ∧ (run_mpi testspec t0 t1 mpirun_found rc payload parse catch_txt).start_time ≤
      (run_mpi testspec t0 t1 mpirun_found rc payload parse catch_txt).end_time
    ∧ (get_test_info_times sample failed).1 = (get_test_info_times sample failed).2
    ∧ (worker_fail_result testspec trace_txt).start_time =
      (worker_fail_result testspec trace_txt).end_time := by
  refine ⟨?_, ?_, ?_, ?_, ?_, rfl⟩
  · cases pout <;> simp [run_testspec, runner_run_test, h01, h12]
  · cases raised <;> simp [runner_run_isolated, hle]
  · unfold isolated_run_isolated
    split
    · simp
    · cases parse payload <;> simp [hle]
  · unfold run_mpi
    split
    · simp
    · split
      · cases parse payload <;> simp [hle]
      · simp [hle]
  · cases failed <;> simp [get_test_info_times]

/-- C7, witness for the amended theorem at a concretely advancing clock. -/
theorem result_times_contract_witness :
    (run_testspec (fun i => i) "t" ParseOutcome.resolved true Status.OK true Status.OK
      Status.OK "").start_time ≤
    (run_testspec (fun i => i) "t" ParseOutcome.resolved true Status.OK true Status.OK
      Status.OK "").end_time :=
  (result_times_contract (fun i => i) (by decide) (by decide) "t" ParseOutcome.resolved
    true Status.OK true Status.OK Status.OK "" 0 1 (by decide) false 0 "" "" ""
    (fun _ => none) true 0 false "").1

/-- C8: a fault while a worker produces the result of one task-queue item is
converted into the catch-all FAIL result (zeroed timestamps, diagnostic
trace) placed on the done queue, and the worker continues its loop on the
remaining items instead of terminating. -/
theorem worker_fault_to_fail_result (run : String → TestResult) (faults : String → Bool)
    (trace_txt : String → String) (ts1 ts2 : List String) (t : String)
    (h1 : "STOP" ∉ ts1) (h2 : t ≠ "STOP") (h3 : faults t = true) :
    worker run faults trace_txt (ts1 ++ t :: ts2) =
      ts1.map (fun s => if faults s then worker_fail_result s (trace_txt s) else run s)
        ++ worker_fail_result t (trace_txt t) :: worker run faults trace_txt ts2 := by
  induction ts1 with
  | nil => simp [worker, h2, h3]
  | cons a as ih =>
    have ha : ¬(a = "STOP") := fun he => h1 (he ▸ List.mem_cons_self a as)
    have ih2 := ih (fun hm => h1 (List.mem_cons_of_mem a hm))
    simp [worker, ha, ih2]

/-- C8, witness: item b faults between two healthy items; the worker emits
the FAIL result for b and still processes c. -/
theorem worker_fault_to_fail_result_witness :
    worker (fun s => ⟨s, 1, 2, Status.OK, "", []⟩) (fun s => s == "b") (fun _ => "TB")
        (["a"] ++ "b" :: ["c"]) =
      (["a"].map (fun s => if (s == "b") then worker_fail_result s "TB"
          else ⟨s, 1, 2, Status.OK, "", []⟩))
        ++ worker_fail_result "b" "TB"
          :: worker (fun s => ⟨s, 1, 2, Status.OK, "", []⟩) (fun s => s == "b")
              (fun _ => "TB") ["c"] :=
  worker_fault_to_fail_result (fun s => ⟨s, 1, 2, Status.OK, "", []⟩) (fun s => s == "b")
    (fun _ => "TB") ["a"] ["c"] "b" (by decide) (by decide) (by decide)

/-- C9: the retention-list stage re-emits every consumed result unchanged and
in arrival order, writes to its output file exactly the specifications of the
results whose status is OK and whose elapsed time is at most the threshold,
and the file contents are independent of whatever the file held before the
stage started (mode w truncation). -/
theorem timefilter_contract (max_time : Nat) (prior : List String) (input : List TestResult) :
    (timefilter_get_iter max_time prior input).2 = input
    ∧ (timefilter_get_iter max_time prior input).1 =
      (input.filter (fun r => decide (r.status = Status.OK ∧ r.elapsed ≤ max_time))).map TestResult.spec
    ∧ timefilter_get_iter max_time prior input = timefilter_get_iter max_time [] input := by
  refine ⟨?_, ?_, rfl⟩
  · induction input with
    | nil => rfl
    | cons r rs ih => simpa [timefilter_get_iter, timefilter_step] using ih
  · induction input with
    | nil => rfl
    | cons r rs ih =>
      by_cases hc : r.status = Status.OK ∧ r.elapsed ≤ max_time <;>
        simp [timefilter_get_iter, timefilter_step, hc] at ih ⊢ <;>
        exact ih

theorem concLoop_step_nil_inflight (run : String → TestResult) (stop : Bool)
    (oracle : Nat → Nat) (pending : List String) (step : Nat) :
    concLoop run stop oracle pending [] step = ([], [], step, false) := by
  cases pending <;> rw [concLoop] <;> simp

theorem concLoop_step_deadlock (run : String → TestResult) (stop : Bool)
    (oracle : Nat → Nat) (pending inflight : List String) (step : Nat)
    (hne : inflight ≠ []) (hfe : inflight.filter (fun s => !(s == "STOP")) = []) :
    concLoop run stop oracle pending inflight step = ([], inflight, step, true) := by
  cases pending <;> rw [concLoop] <;> simp [hne, hfe]

theorem concLoop_step_break (run : String → TestResult) (stop : Bool)
    (oracle : Nat → Nat) (pending inflight : List String) (step : Nat)
    (hne : inflight ≠ []) (hfe : inflight.filter (fun s => !(s == "STOP")) ≠ [])
    (hb : stop = true ∧
      (run (pickCompletable oracle step (inflight.filter (fun s => !(s == "STOP"))))).status = Status.FAIL) :
    concLoop run stop oracle pending inflight step =
      ([Event.yielded (run (pickCompletable oracle step (inflight.filter (fun s => !(s == "STOP")))))],
       inflight.erase (pickCompletable oracle step (inflight.filter (fun s => !(s == "STOP")))),
       step + 1, false) := by
  cases pending <;> rw [concLoop] <;> simp [hne, hfe, hb]

theorem concLoop_step_exhaust (run : String → TestResult) (stop : Bool)
    (oracle : Nat → Nat) (inflight : List String) (step : Nat)
    (hne : inflight ≠ []) (hfe : inflight.filter (fun s => !(s == "STOP")) ≠ [])
    (hnb : ¬(stop = true ∧
      (run (pickCompletable oracle step (inflight.filter (fun s => !(s == "STOP"))))).status = Status.FAIL)) :
    concLoop run stop oracle [] inflight step =
      ([Event.yielded (run (pickCompletable oracle step (inflight.filter (fun s => !(s == "STOP")))))],
       inflight.erase (pickCompletable oracle step (inflight.filter (fun s => !(s == "STOP")))),
       step + 1, false) := by
  rw [concLoop]
  simp [hne, hfe, hnb]

theorem concLoop_step_cont (run : String → TestResult) (stop : Bool)
    (oracle : Nat → Nat) (p : String) (ps inflight : List String) (step : Nat)
    (hne : inflight ≠ []) (hfe : inflight.filter (fun s => !(s == "STOP")) ≠ [])
    (hnb : ¬(stop = true ∧
      (run (pickCompletable oracle step (inflight.filter (fun s => !(s == "STOP"))))).status = Status.FAIL)) :
    concLoop run stop oracle (p :: ps) inflight step =
      (Event.yielded (run (pickCompletable oracle step (inflight.filter (fun s => !(s == "STOP")))))
         :: Event.assign p
         :: (concLoop run stop oracle ps
              ((inflight.erase (pickCompletable oracle step (inflight.filter (fun s => !(s == "STOP"))))) ++ [p])
              (step + 1)).1,
       (concLoop run stop oracle ps
          ((inflight.erase (pickCompletable oracle step (inflight.filter (fun s => !(s == "STOP"))))) ++ [p])
          (step + 1)).2) := by
  rw [concLoop]
  simp [hne, hfe, hnb]

theorem yieldsOf_yield_cons (r : TestResult) (es : List Event) :
    yieldsOf (Event.yielded r :: es) = r :: yieldsOf es := rfl

theorem yieldsOf_assign_cons (s : String) (es : List Event) :
    yieldsOf (Event.assign s :: es) = yieldsOf es := rfl

theorem assignsOf_yield_cons (r : TestResult) (es : List Event) :
    assignsOf (Event.yielded r :: es) = assignsOf es := rfl

theorem assignsOf_assign_cons (s : String) (es : List Event) :
    assignsOf (Event.assign s :: es) = s :: assignsOf es := rfl

theorem sentinelCount_yield_cons (r : TestResult) (es : List Event) :
    sentinelCount (Event.yielded r :: es) = sentinelCount es := rfl

theorem sentinelCount_assign_cons (s : String) (es : List Event) :
    sentinelCount (Event.assign s :: es) = sentinelCount es := rfl

theorem naf_cons_not_fail {e : Event} {es : List Event} (h : e.isFailYield = false) :
    noAssignAfterFirstFail (e :: es) = noAssignAfterFirstFail es := by
  simp [noAssignAfterFirstFail, h]

theorem naf_cons_fail {e : Event} {es : List Event} (h : e.isFailYield = true) :
    noAssignAfterFirstFail (e :: es) = es.all (fun x => !x.isAssign) := by
  simp [noAssignAfterFirstFail, h]

theorem concLoop_sentinels (run : String → TestResult) (stop : Bool) (oracle : Nat → Nat) :
    ∀ (pending inflight : List String) (step : Nat),
      sentinelCount (concLoop run stop oracle pending inflight step).1 = 0 := by
  intro pending
  induction pending with
  | nil =>
    intro inflight step
    by_cases h1 : inflight = []
    · rw [h1, concLoop_step_nil_inflight]; rfl
    · by_cases h2 : inflight.filter (fun s => !(s == "STOP")) = []
      · rw [concLoop_step_deadlock run stop oracle [] inflight step h1 h2]; rfl
      · by_cases h3 : stop = true ∧
            (run (pickCompletable oracle step (inflight.filter (fun s => !(s == "STOP"))))).status = Status.FAIL
        · rw [concLoop_step_break run stop oracle [] inflight step h1 h2 h3]; rfl
        · rw [concLoop_step_exhaust run stop oracle inflight step h1 h2 h3]; rfl
  | cons p ps ih =>
    intro inflight step
    by_cases h1 : inflight = []
    · rw [h1, concLoop_step_nil_inflight]; rfl
    · by_cases h2 : inflight.filter (fun s => !(s == "STOP")) = []
      · rw [concLoop_step_deadlock run stop oracle (p :: ps) inflight step h1 h2]; rfl
      · by_cases h3 : stop = true ∧
            (run (pickCompletable oracle step (inflight.filter (fun s => !(s == "STOP"))))).status = Status.FAIL
        · rw [concLoop_step_break run stop oracle (p :: ps) inflight step h1 h2 h3]; rfl
        · rw [concLoop_step_cont run stop oracle p ps inflight step h1 h2 h3]
          rw [sentinelCount_yield_cons, sentinelCount_assign_cons]
          exact ih _ _

theorem concLoop_assigns_prefix (run : String → TestResult) (stop : Bool) (oracle : Nat → Nat) :
    ∀ (pending inflight : List String) (step : Nat),
      assignsOf (concLoop run stop oracle pending inflight step).1 <+: pending := by
  intro pending
  induction pending with
  | nil =>
    intro inflight step
    by_cases h1 : inflight = []
    · rw [h1, concLoop_step_nil_inflight]; exact List.nil_prefix
    · by_cases h2 : inflight.filter (fun s => !(s == "STOP")) = []
      · rw [concLoop_step_deadlock run stop oracle [] inflight step h1 h2]
        exact List.nil_prefix
      · by_cases h3 : stop = true ∧
            (run (pickCompletable oracle step (inflight.filter (fun s => !(s == "STOP"))))).status = Status.FAIL
        · rw [concLoop_step_break run stop oracle [] inflight step h1 h2 h3]
          exact List.nil_prefix
        · rw [concLoop_step_exhaust run stop oracle inflight step h1 h2 h3]
          exact List.nil_prefix
  | cons p ps ih =>
    intro inflight step
    by_cases h1 : inflight = []
    · rw [h1, concLoop_step_nil_inflight]; exact List.nil_prefix
    · by_cases h2 : inflight.filter (fun s => !(s == "STOP")) = []
      · rw [concLoop_step_deadlock run stop oracle (p :: ps) inflight step h1 h2]
        exact List.nil_prefix
      · by_cases h3 : stop = true ∧
            (run (pickCompletable oracle step (inflight.filter (fun s => !(s == "STOP"))))).status = Status.FAIL
        · rw [concLoop_step_break run stop oracle (p :: ps) inflight step h1 h2 h3]
          exact List.nil_prefix
        · rw [concLoop_step_cont run stop oracle p ps inflight step h1 h2 h3]
          rw [assignsOf_yield_cons, assignsOf_assign_cons]
          obtain ⟨t, ht⟩ := ih ((inflight.erase
            (pickCompletable oracle step (inflight.filter (fun s => !(s == "STOP"))))) ++ [p]) (step + 1)
          exact ⟨t, by rw [List.cons_append, ht]⟩

theorem concLoop_naf (run : String → TestResult) (oracle : Nat → Nat) :
    ∀ (pending inflight : List String) (step : Nat) (rest : List Event),
      rest.all (fun e => !e.isAssign) = true →
      noAssignAfterFirstFail ((concLoop run true oracle pending inflight step).1 ++ rest) = true := by
  intro pending
  induction pending with
  | nil =>
    intro inflight step rest hrest
    by_cases h1 : inflight = []
    · rw [h1, concLoop_step_nil_inflight]
      exact naf_of_no_assign hrest
    · by_cases h2 : inflight.filter (fun s => !(s == "STOP")) = []
      · rw [concLoop_step_deadlock run true oracle [] inflight step h1 h2]
        exact naf_of_no_assign hrest
      · by_cases h3 : (true : Bool) = true ∧
            (run (pickCompletable oracle step (inflight.filter (fun s => !(s == "STOP"))))).status = Status.FAIL
        · rw [concLoop_step_break run true oracle [] inflight step h1 h2 h3]
          rw [List.singleton_append]
          rw [naf_cons_fail (by simp [Event.isFailYield, h3.2])]
          exact hrest
        · rw [concLoop_step_exhaust run true oracle inflight step h1 h2 h3]
          rw [List.singleton_append]
          have hsf : (run (pickCompletable oracle step (inflight.filter (fun s => !(s == "STOP"))))).status ≠ Status.FAIL :=
            fun h => h3 ⟨rfl, h⟩
          rw [naf_cons_not_fail (by simp [Event.isFailYield, hsf])]
          exact naf_of_no_assign hrest
  | cons p ps ih =>
    intro inflight step rest hrest
    by_cases h1 : inflight = []
    · rw [h1, concLoop_step_nil_inflight]
      exact naf_of_no_assign hrest
    · by_cases h2 : inflight.filter (fun s => !(s == "STOP")) = []
      · rw [concLoop_step_deadlock run true oracle (p :: ps) inflight step h1 h2]
        exact naf_of_no_assign hrest
      · by_cases h3 : (true : Bool) = true ∧
            (run (pickCompletable oracle step (inflight.filter (fun s => !(s == "STOP"))))).status = Status.FAIL
        · rw [concLoop_step_break run true oracle (p :: ps) inflight step h1 h2 h3]
          rw [List.singleton_append]
          rw [naf_cons_fail (by simp [Event.isFailYield, h3.2])]
          exact hrest
        · rw [concLoop_step_cont run true oracle p ps inflight step h1 h2 h3]
          have hsf : (run (pickCompletable oracle step (inflight.filter (fun s => !(s == "STOP"))))).status ≠ Status.FAIL :=
            fun h => h3 ⟨rfl, h⟩
          rw [List.cons_append, List.cons_append]
          rw [naf_cons_not_fail (by simp [Event.isFailYield, hsf])]
          rw [naf_cons_not_fail (by simp [Event.isFailYield])]
          exact ih _ _ _ hrest

theorem concLoop_count (run : String → TestResult) (stop : Bool) (oracle : Nat → Nat) :
    ∀ (pending inflight : List String) (step : Nat),
      (yieldsOf (concLoop run stop oracle pending inflight step).1).length
        + (((concLoop run stop oracle pending inflight step).2.1).filter (fun s => !(s == "STOP"))).length
      = (inflight.filter (fun s => !(s == "STOP"))).length
        + ((assignsOf (concLoop run stop oracle pending inflight step).1).filter (fun s => !(s == "STOP"))).length := by
  intro pending
  induction pending with
  | nil =>
    intro inflight step
    by_cases h1 : inflight = []
    · rw [h1, concLoop_step_nil_inflight]; rfl
    · by_cases h2 : inflight.filter (fun s => !(s == "STOP")) = []
      · rw [concLoop_step_deadlock run stop oracle [] inflight step h1 h2]
        simp [yieldsOf, assignsOf]
      · by_cases h3 : stop = true ∧
            (run (pickCompletable oracle step (inflight.filter (fun s => !(s == "STOP"))))).status = Status.FAIL
        · rw [concLoop_step_break run stop oracle [] inflight step h1 h2 h3]
          have hpick := pickCompletable_mem oracle step h2
          have hcm := List.mem_of_mem_filter hpick
          have hcns : pickCompletable oracle step (inflight.filter (fun s => !(s == "STOP"))) ≠ "STOP" := by
            have := List.of_mem_filter hpick
            simpa using this
          have hfe := filter_length_erase hcm hcns
          simp only [yieldsOf_yield_cons, yieldsOf, assignsOf_yield_cons, assignsOf,
            List.length_cons, List.length_nil, List.filter_nil]
          omega
        · rw [concLoop_step_exhaust run stop oracle inflight step h1 h2 h3]
          have hpick := pickCompletable_mem oracle step h2
          have hcm := List.mem_of_mem_filter hpick
          have hcns : pickCompletable oracle step (inflight.filter (fun s => !(s == "STOP"))) ≠ "STOP" := by
            have := List.of_mem_filter hpick
            simpa using this
          have hfe := filter_length_erase hcm hcns
          simp only [yieldsOf_yield_cons, yieldsOf, assignsOf_yield_cons, assignsOf,
            List.length_cons, List.length_nil, List.filter_nil]
          omega
  | cons p ps ih =>
    intro inflight step
    by_cases h1 : inflight = []
    · rw [h1, concLoop_step_nil_inflight]; rfl
    · by_cases h2 : inflight.filter (fun s => !(s == "STOP")) = []
      · rw [concLoop_step_deadlock run stop oracle (p :: ps) inflight step h1 h2]
        simp [yieldsOf, assignsOf]
      · by_cases h3 : stop = true ∧
            (run (pickCompletable oracle step (inflight.filter (fun s => !(s == "STOP"))))).status = Status.FAIL
        · rw [concLoop_step_break run stop oracle (p :: ps) inflight step h1 h2 h3]
          have hpick := pickCompletable_mem oracle step h2
          have hcm := List.mem_of_mem_filter hpick
          have hcns : pickCompletable oracle step (inflight.filter (fun s => !(s == "STOP"))) ≠ "STOP" := by
            have := List.of_mem_filter hpick
            simpa using this
          have hfe := filter_length_erase hcm hcns
          simp only [yieldsOf_yield_cons, yieldsOf, assignsOf_yield_cons, assignsOf,
            List.length_cons, List.length_nil, List.filter_nil]
          omega
        · rw [concLoop_step_cont run stop oracle p ps inflight step h1 h2 h3]
          have hpick := pickCompletable_mem oracle step h2
          have hcm := List.mem_of_mem_filter hpick
          have hcns : pickCompletable oracle step (inflight.filter (fun s => !(s == "STOP"))) ≠ "STOP" := by
            have := List.of_mem_filter hpick
            simpa using this
          have hfe := filter_length_erase hcm hcns
          have ihh := ih ((inflight.erase
            (pickCompletable oracle step (inflight.filter (fun s => !(s == "STOP"))))) ++ [p]) (step + 1)
          rw [List.filter_append, List.length_append] at ihh
          simp only [yieldsOf_yield_cons, yieldsOf_assign_cons, assignsOf_yield_cons,
            assignsOf_assign_cons, List.length_cons]
          rw [show (p :: assignsOf (concLoop run stop oracle ps
              ((inflight.erase (pickCompletable oracle step (inflight.filter (fun s => !(s == "STOP"))))) ++ [p])
              (step + 1)).1) = [p] ++ assignsOf (concLoop run stop oracle ps
              ((inflight.erase (pickCompletable oracle step (inflight.filter (fun s => !(s == "STOP"))))) ++ [p])
              (step + 1)).1 from rfl]
          rw [List.filter_append, List.length_append]
          omega

theorem concLoop_invariant (run : String → TestResult) (stop : Bool) (oracle : Nat → Nat) :
    ∀ (pending inflight : List String) (step : Nat),
      "STOP" ∉ pending → "STOP" ∉ inflight →
      (concLoop run stop oracle pending inflight step).2.2.2 = false
      ∧ "STOP" ∉ (concLoop run stop oracle pending inflight step).2.1
      ∧ (yieldsOf (concLoop run stop oracle pending inflight step).1
          ++ ((concLoop run stop oracle pending inflight step).2.1).map run).Perm
         (inflight.map run
          ++ (assignsOf (concLoop run stop oracle pending inflight step).1).map run) := by
  intro pending
  induction pending with
  | nil =>
    intro inflight step hp hi
    by_cases h1 : inflight = []
    · rw [h1, concLoop_step_nil_inflight]
      exact ⟨rfl, List.not_mem_nil _, by simp [yieldsOf, assignsOf]⟩
    · by_cases h2 : inflight.filter (fun s => !(s == "STOP")) = []
      · rw [filter_eq_self_of_no_stop hi] at h2
        exact absurd h2 h1
      · by_cases h3 : stop = true ∧
            (run (pickCompletable oracle step (inflight.filter (fun s => !(s == "STOP"))))).status = Status.FAIL
        · rw [concLoop_step_break run stop oracle [] inflight step h1 h2 h3]
          have hcm : pickCompletable oracle step (inflight.filter (fun s => !(s == "STOP"))) ∈ inflight :=
            List.mem_of_mem_filter (pickCompletable_mem oracle step h2)
          refine ⟨rfl, erase_no_stop _ hi, ?_⟩
          simp only [yieldsOf_yield_cons, yieldsOf, assignsOf_yield_cons, assignsOf,
            List.map_nil, List.append_nil, List.cons_append, List.nil_append]
          exact (perm_erase_map run hcm).symm
        · rw [concLoop_step_exhaust run stop oracle inflight step h1 h2 h3]
          have hcm : pickCompletable oracle step (inflight.filter (fun s => !(s == "STOP"))) ∈ inflight :=
            List.mem_of_mem_filter (pickCompletable_mem oracle step h2)
          refine ⟨rfl, erase_no_stop _ hi, ?_⟩
          simp only [yieldsOf_yield_cons, yieldsOf, assignsOf_yield_cons, assignsOf,
            List.map_nil, List.append_nil, List.cons_append, List.nil_append]
          exact (perm_erase_map run hcm).symm
  | cons p ps ih =>
    intro inflight step hp hi
    have hp2 : "STOP" ∉ ps := fun hm => hp (List.mem_cons_of_mem p hm)
    have hpp : p ≠ "STOP" := fun he => hp (he ▸ List.mem_cons_self p ps)
    by_cases h1 : inflight = []
    · rw [h1, concLoop_step_nil_inflight]
      exact ⟨rfl, List.not_mem_nil _, by simp [yieldsOf, assignsOf]⟩
    · by_cases h2 : inflight.filter (fun s => !(s == "STOP")) = []
      · rw [filter_eq_self_of_no_stop hi] at h2
        exact absurd h2 h1
      · by_cases h3 : stop = true ∧
            (run (pickCompletable oracle step (inflight.filter (fun s => !(s == "STOP"))))).status = Status.FAIL
        · rw [concLoop_step_break run stop oracle (p :: ps) inflight step h1 h2 h3]
          have hcm : pickCompletable oracle step (inflight.filter (fun s => !(s == "STOP"))) ∈ inflight :=
            List.mem_of_mem_filter (pickCompletable_mem oracle step h2)
          refine ⟨rfl, erase_no_stop _ hi, ?_⟩
          simp only [yieldsOf_yield_cons, yieldsOf, assignsOf_yield_cons, assignsOf,
            List.map_nil, List.append_nil, List.cons_append, List.nil_append]
          exact (perm_erase_map run hcm).symm
        · rw [concLoop_step_cont run stop oracle p ps inflight step h1 h2 h3]
          have hcm : pickCompletable oracle step (inflight.filter (fun s => !(s == "STOP"))) ∈ inflight :=
            List.mem_of_mem_filter (pickCompletable_mem oracle step h2)
          have hi2 : "STOP" ∉ (inflight.erase
              (pickCompletable oracle step (inflight.filter (fun s => !(s == "STOP"))))) ++ [p] := by
            intro hm
            rcases List.mem_append.mp hm with hm | hm
            · exact erase_no_stop _ hi hm
            · rcases List.mem_singleton.mp hm with he
              exact hpp he.symm
          have ihh := ih ((inflight.erase
            (pickCompletable oracle step (inflight.filter (fun s => !(s == "STOP"))))) ++ [p]) (step + 1) hp2 hi2
          refine ⟨ihh.1, ihh.2.1, ?_⟩
          simp only [yieldsOf_yield_cons, yieldsOf_assign_cons, assignsOf_yield_cons,
            assignsOf_assign_cons, List.map_cons, List.cons_append]
          refine List.Perm.trans (List.Perm.cons _ ihh.2.2) ?_
          rw [List.map_append, List.append_assoc]
          simp only [List.map_cons, List.map_nil, List.singleton_append]
          rw [show run (pickCompletable oracle step (inflight.filter (fun s => !(s == "STOP"))))
                :: ((inflight.erase (pickCompletable oracle step (inflight.filter (fun s => !(s == "STOP"))))).map run
                  ++ (run p :: (assignsOf (concLoop run stop oracle ps
                      ((inflight.erase (pickCompletable oracle step (inflight.filter (fun s => !(s == "STOP"))))) ++ [p])
                      (step + 1)).1).map run))
              = (run (pickCompletable oracle step (inflight.filter (fun s => !(s == "STOP"))))
                :: (inflight.erase (pickCompletable oracle step (inflight.filter (fun s => !(s == "STOP"))))).map run)
                ++ (run p :: (assignsOf (concLoop run stop oracle ps
                    ((inflight.erase (pickCompletable oracle step (inflight.filter (fun s => !(s == "STOP"))))) ++ [p])
                    (step + 1)).1).map run) from rfl]
          exact List.Perm.append_right _ (perm_erase_map run hcm).symm

theorem run_conc_eq_fill_path (run : String → TestResult) (stop : Bool) (nprocs : Nat)
    (input : List String) (oracle : Nat → Nat) (hlt : input.length < nprocs) :
    run_concurrent_tests run stop nprocs input oracle =
      (input.take nprocs).map Event.assign ++ List.replicate nprocs Event.sentinel
        ++ drainLoop run oracle (input.take nprocs) 0 := by
  simp only [run_concurrent_tests]
  rw [if_pos hlt]

theorem run_conc_eq_deadlock_path (run : String → TestResult) (stop : Bool) (nprocs : Nat)
    (input : List String) (oracle : Nat → Nat) (hge : ¬(input.length < nprocs))
    (hdl : (concLoop run stop oracle (input.drop nprocs) (input.take nprocs) 0).2.2.2 = true) :
    run_concurrent_tests run stop nprocs input oracle =
      (input.take nprocs).map Event.assign
        ++ (concLoop run stop oracle (input.drop nprocs) (input.take nprocs) 0).1 := by
  simp only [run_concurrent_tests]
  rw [if_neg hge, if_pos hdl]

theorem run_conc_eq_normal_path (run : String → TestResult) (stop : Bool) (nprocs : Nat)
    (input : List String) (oracle : Nat → Nat) (hge : ¬(input.length < nprocs))
    (hdl : (concLoop run stop oracle (input.drop nprocs) (input.take nprocs) 0).2.2.2 = false) :
    run_concurrent_tests run stop nprocs input oracle =
      (input.take nprocs).map Event.assign
        ++ (concLoop run stop oracle (input.drop nprocs) (input.take nprocs) 0).1
        ++ List.replicate nprocs Event.sentinel
        ++ drainLoop run oracle
            (concLoop run stop oracle (input.drop nprocs) (input.take nprocs) 0).2.1
            (concLoop run stop oracle (input.drop nprocs) (input.take nprocs) 0).2.2.1 := by
  simp only [run_concurrent_tests]
  rw [if_neg hge, if_neg (by rw [hdl]; exact Bool.false_ne_true)]

theorem run_conc_assigns_prefix (run : String → TestResult) (stop : Bool) (nprocs : Nat)
    (input : List String) (oracle : Nat → Nat) :
    assignsOf (run_concurrent_tests run stop nprocs input oracle) <+: input := by
  by_cases hlt : input.length < nprocs
  · rw [run_conc_eq_fill_path run stop nprocs input oracle hlt]
    rw [assignsOf_append, assignsOf_append, assignsOf_map_assign,
      assignsOf_replicate_sentinel, drainLoop, drainFuel_assignsOf]
    exact ⟨input.drop nprocs, by simp [List.take_append_drop]⟩
  · obtain ⟨t, ht⟩ := concLoop_assigns_prefix run stop oracle (input.drop nprocs) (input.take nprocs) 0
    by_cases hdl : (concLoop run stop oracle (input.drop nprocs) (input.take nprocs) 0).2.2.2 = true
    · rw [run_conc_eq_deadlock_path run stop nprocs input oracle hlt hdl]
      rw [assignsOf_append, assignsOf_map_assign]
      exact ⟨t, by rw [List.append_assoc, ht, List.take_append_drop]⟩
    · rw [run_conc_eq_normal_path run stop nprocs input oracle hlt (Bool.not_eq_true _ ▸ hdl)]
      rw [assignsOf_append, assignsOf_append, assignsOf_append, assignsOf_map_assign,
        assignsOf_replicate_sentinel, drainLoop, drainFuel_assignsOf, List.append_nil,
        List.append_nil]
      exact ⟨t, by rw [List.append_assoc, ht, List.take_append_drop]⟩

theorem run_conc_yields_le (run : String → TestResult) (stop : Bool) (nprocs : Nat)
    (input : List String) (oracle : Nat → Nat) :
    (yieldsOf (run_concurrent_tests run stop nprocs input oracle)).length ≤
      ((assignsOf (run_concurrent_tests run stop nprocs input oracle)).filter
        (fun s => !(s == "STOP"))).length := by
  by_cases hlt : input.length < nprocs
  · rw [run_conc_eq_fill_path run stop nprocs input oracle hlt]
    simp only [drainLoop]
    rw [yieldsOf_append, yieldsOf_append, yieldsOf_map_assign, yieldsOf_replicate_sentinel,
      assignsOf_append, assignsOf_append, assignsOf_map_assign, assignsOf_replicate_sentinel,
      drainFuel_assignsOf]
    have hcount := drainFuel_count run oracle (input.take nprocs).length (input.take nprocs) 0
      (Nat.le_refl _)
    simp only [List.nil_append, List.append_nil]
    rw [hcount]
  · have hcount := concLoop_count run stop oracle (input.drop nprocs) (input.take nprocs) 0
    by_cases hdl : (concLoop run stop oracle (input.drop nprocs) (input.take nprocs) 0).2.2.2 = true
    · rw [run_conc_eq_deadlock_path run stop nprocs input oracle hlt hdl]
      rw [yieldsOf_append, yieldsOf_map_assign, assignsOf_append, assignsOf_map_assign]
      rw [List.nil_append, List.filter_append, List.length_append]
      omega
    · rw [run_conc_eq_normal_path run stop nprocs input oracle hlt (Bool.not_eq_true _ ▸ hdl)]
      simp only [drainLoop]
      rw [yieldsOf_append, yieldsOf_append, yieldsOf_append, yieldsOf_map_assign,
        yieldsOf_replicate_sentinel, assignsOf_append, assignsOf_append, assignsOf_append,
        assignsOf_map_assign, assignsOf_replicate_sentinel, drainFuel_assignsOf]
      have hdrain := drainFuel_count run oracle
        (concLoop run stop oracle (input.drop nprocs) (input.take nprocs) 0).2.1.length
        (concLoop run stop oracle (input.drop nprocs) (input.take nprocs) 0).2.1
        (concLoop run stop oracle (input.drop nprocs) (input.take nprocs) 0).2.2.1
        (Nat.le_refl _)
      simp only [drainLoop] at hdrain
      simp only [List.nil_append, List.append_nil, List.length_append]
      rw [List.filter_append, List.length_append]
      omega

theorem get_iter_stop_prefix (run : String → TestResult) :
    ∀ input : List String, get_iter run true input <+: input.map run := by
  intro input
  induction input with
  | nil => exact List.nil_prefix
  | cons t ts ih =>
    by_cases h : (run t).status = Status.FAIL
    · simp only [get_iter]
      rw [if_pos ⟨trivial, h⟩]
      exact ⟨ts.map run, rfl⟩
    · simp only [get_iter]
      rw [if_neg (fun hc => h hc.2)]
      obtain ⟨u, hu⟩ := ih
      exact ⟨u, by rw [List.map_cons, List.cons_append, hu]⟩

theorem get_iter_no_fail_before_last (run : String → TestResult) :
    ∀ (input : List String), ∀ r ∈ (get_iter run true input).dropLast,
      r.status ≠ Status.FAIL := by
  intro input
  induction input with
  | nil => intro r hr; simp [get_iter] at hr
  | cons t ts ih =>
    intro r
    by_cases h : (run t).status = Status.FAIL
    · simp only [get_iter]
      rw [if_pos ⟨trivial, h⟩]
      intro hr
      simp at hr
    · simp only [get_iter]
      rw [if_neg (fun hc => h hc.2)]
      cases hg : get_iter run true ts with
      | nil => intro hr; simp at hr
      | cons b bs =>
        intro hr
        have hr2 : r = run t ∨ r ∈ (b :: bs).dropLast := by
          rw [List.dropLast_cons₂] at hr
          rcases List.mem_cons.mp hr with h1 | h1
          · exact Or.inl h1
          · exact Or.inr h1
        rcases hr2 with rfl | hr2
        · exact h
        · exact ih r (by rw [hg]; exact hr2)

/-- C1: with stop-on-failure enabled (and no input item colliding with the
worker sentinel string), once the concurrent scheduler yields the first FAIL
result it puts no further work item on the task queue; every result it yields
(the first FAIL and the drained in-flight results included) belongs to an
item it admitted, and every admitted item is yielded exactly once, so no
result is emitted for a not-yet-admitted specification; exactly one stop
sentinel is sent per worker; and the sequential iterator behaves the same
way: its output is a prefix of the full result stream in which no result
before the last one is a FAIL. -/
theorem stop_on_failure_contract (run : String → TestResult) (nprocs : Nat)
    (input : List String) (oracle : Nat → Nat) (hstop : "STOP" ∉ input) :
    noAssignAfterFirstFail (run_concurrent_tests run true nprocs input oracle) = true
    ∧ (yieldsOf (run_concurrent_tests run true nprocs input oracle)).Perm
        ((assignsOf (run_concurrent_tests run true nprocs input oracle)).map run)
    ∧ assignsOf (run_concurrent_tests run true nprocs input oracle) <+: input
    ∧ sentinelCount (run_concurrent_tests run true nprocs input oracle) = nprocs
    ∧ get_iter run true input <+: input.map run
    ∧ ∀ r ∈ (get_iter run true input).dropLast, r.status ≠ Status.FAIL := by
  have htake : "STOP" ∉ input.take nprocs := fun hm => hstop (List.take_subset _ _ hm)
  have hdrop : "STOP" ∉ input.drop nprocs := fun hm => hstop (List.drop_subset _ _ hm)
  refine ⟨?_, ?_, run_conc_assigns_prefix run true nprocs input oracle, ?_,
    get_iter_stop_prefix run input, get_iter_no_fail_before_last run input⟩
  · by_cases hlt : input.length < nprocs
    · rw [run_conc_eq_fill_path run true nprocs input oracle hlt, List.append_assoc]
      apply naf_append_no_fail (map_assign_no_fail _)
      apply naf_append_no_fail (replicate_sentinel_no_fail _)
      simp only [drainLoop]
      exact naf_of_no_assign (drainFuel_no_assign run oracle _ _ _)
    · have hinv := concLoop_invariant run true oracle (input.drop nprocs) (input.take nprocs) 0
        hdrop htake
      rw [run_conc_eq_normal_path run true nprocs input oracle hlt hinv.1,
        List.append_assoc, List.append_assoc]
      apply naf_append_no_fail (map_assign_no_fail _)
      apply concLoop_naf
      rw [List.all_append, Bool.and_eq_true]
      refine ⟨replicate_sentinel_no_assign _, ?_⟩
      simp only [drainLoop]
      exact drainFuel_no_assign run oracle _ _ _
  · by_cases hlt : input.length < nprocs
    · rw [run_conc_eq_fill_path run true nprocs input oracle hlt]
      simp only [drainLoop]
      rw [yieldsOf_append, yieldsOf_append, yieldsOf_map_assign, yieldsOf_replicate_sentinel,
        assignsOf_append, assignsOf_append, assignsOf_map_assign, assignsOf_replicate_sentinel,
        drainFuel_assignsOf]
      simp only [List.nil_append, List.append_nil]
      exact drainFuel_perm run oracle _ _ 0 (Nat.le_refl _) htake
    · have hinv := concLoop_invariant run true oracle (input.drop nprocs) (input.take nprocs) 0
        hdrop htake
      rw [run_conc_eq_normal_path run true nprocs input oracle hlt hinv.1]
      simp only [drainLoop]
      rw [yieldsOf_append, yieldsOf_append, yieldsOf_append, yieldsOf_map_assign,
        yieldsOf_replicate_sentinel, assignsOf_append, assignsOf_append, assignsOf_append,
        assignsOf_map_assign, assignsOf_replicate_sentinel, drainFuel_assignsOf]
      simp only [List.nil_append, List.append_nil]
      have hdrain := drainFuel_perm run oracle
        (concLoop run true oracle (input.drop nprocs) (input.take nprocs) 0).2.1.length
        (concLoop run true oracle (input.drop nprocs) (input.take nprocs) 0).2.1
        (concLoop run true oracle (input.drop nprocs) (input.take nprocs) 0).2.2.1
        (Nat.le_refl _) hinv.2.1
      rw [List.map_append]
      exact (List.Perm.append_left _ hdrain).trans hinv.2.2
  · by_cases hlt : input.length < nprocs
    · rw [run_conc_eq_fill_path run true nprocs input oracle hlt]
      simp only [drainLoop]
      rw [sentinelCount_append, sentinelCount_append, sentinelCount_map_assign,
        sentinelCount_replicate, drainFuel_sentinelCount]
      omega
    · have hinv := concLoop_invariant run true oracle (input.drop nprocs) (input.take nprocs) 0
        hdrop htake
      rw [run_conc_eq_normal_path run true nprocs input oracle hlt hinv.1]
      simp only [drainLoop]
      rw [sentinelCount_append, sentinelCount_append, sentinelCount_append,
        sentinelCount_map_assign, sentinelCount_replicate, drainFuel_sentinelCount,
        concLoop_sentinels]
      omega

/-- C1, witness at a concrete run: four specifications, two workers, spec b
fails, completion in queue order. -/
theorem stop_on_failure_contract_witness :
    noAssignAfterFirstFail (run_concurrent_tests
      (fun s => if s = "b" then ⟨s, 0, 1, Status.FAIL, "", []⟩ else ⟨s, 0, 1, Status.OK, "", []⟩)
      true 2 ["a", "b", "c", "d"] (fun _ => 0)) = true :=
  (stop_on_failure_contract
    (fun s => if s = "b" then ⟨s, 0, 1, Status.FAIL, "", []⟩ else ⟨s, 0, 1, Status.OK, "", []⟩)
    2 ["a", "b", "c", "d"] (fun _ => 0) (by decide)).1

theorem worker_stops_at_sentinel (run : String → TestResult) (faults : String → Bool)
    (trace_txt : String → String) :
    ∀ (ts1 ts2 : List String), "STOP" ∉ ts1 →
      worker run faults trace_txt (ts1 ++ "STOP" :: ts2) =
        ts1.map (fun s => if faults s then worker_fail_result s (trace_txt s) else run s) := by
  intro ts1
  induction ts1 with
  | nil => intro ts2 _; simp [worker]
  | cons a as ih =>
    intro ts2 h
    have ha : ¬(a = "STOP") := fun he => h (he ▸ List.mem_cons_self a as)
    simp [worker, ha, ih ts2 (fun hm => h (List.mem_cons_of_mem a hm))]

/-- C10: an input specification equal to the literal worker sentinel is never
executed: a worker that takes it from the task queue terminates its loop
there, producing no result for it or for anything after it on its queue; and
consequently the concurrent scheduler emits strictly fewer results than it
has input items whenever the input stream contains the spec STOP. -/
theorem stop_spec_not_executed (run : String → TestResult) (faults : String → Bool)
    (trace_txt : String → String) (ts1 ts2 : List String) (stop : Bool) (nprocs : Nat)
    (input : List String) (oracle : Nat → Nat)
    (h1 : "STOP" ∉ ts1) (hmem : "STOP" ∈ input) :
    worker run faults trace_txt (ts1 ++ "STOP" :: ts2) =
      ts1.map (fun s => if faults s then worker_fail_result s (trace_txt s) else run s)
    ∧ (yieldsOf (run_concurrent_tests run stop nprocs input oracle)).length < input.length := by
  refine ⟨worker_stops_at_sentinel run faults trace_txt ts1 ts2 h1, ?_⟩
  have hle := run_conc_yields_le run stop nprocs input oracle
  have hpre := run_conc_assigns_prefix run stop nprocs input oracle
  have hlen : (assignsOf (run_concurrent_tests run stop nprocs input oracle)).length ≤ input.length :=
    hpre.length_le
  have hfil : ((assignsOf (run_concurrent_tests run stop nprocs input oracle)).filter
      (fun s => !(s == "STOP"))).length ≤
      (assignsOf (run_concurrent_tests run stop nprocs input oracle)).length :=
    List.length_filter_le _ _
  by_cases hmemA : "STOP" ∈ assignsOf (run_concurrent_tests run stop nprocs input oracle)
  · have hlt := filter_lt_of_mem_stop hmemA
    omega
  · have hne : assignsOf (run_concurrent_tests run stop nprocs input oracle) ≠ input :=
      fun he => hmemA (by rw [he]; exact hmem)
    have hlt : (assignsOf (run_concurrent_tests run stop nprocs input oracle)).length < input.length := by
      rcases Nat.lt_or_ge (assignsOf (run_concurrent_tests run stop nprocs input oracle)).length
          input.length with h | h
      · exact h
      · exact absurd (hpre.eq_of_length (Nat.le_antisymm hlen h)) hne
    omega

/-- C10, witness: a three item stream containing the sentinel spec; the
scheduler emits fewer than three results. -/
theorem stop_spec_not_executed_witness :
    (yieldsOf (run_concurrent_tests (fun s => ⟨s, 0, 1, Status.OK, "", []⟩) false 2
      ["a", "STOP", "c"] (fun _ => 0))).length < (["a", "STOP", "c"] : List String).length :=
  (stop_spec_not_executed (fun s => ⟨s, 0, 1, Status.OK, "", []⟩) (fun _ => false)
    (fun _ => "TB") ["x"] [] false 2 ["a", "STOP", "c"] (fun _ => 0)
    (by decide) (by decide)).2

end Testflo
